import Mathlib

/-!
Verification of the framing/reassembly engine of `chrome-native-bridge`
(`src/main.ts`). The engine exchanges length-prefixed JSON frames over byte
streams. We embed the byte level directly: a byte is a `Nat`, a buffer or a
frame is a `List Nat`, and a JS string is identified with its UTF-8 byte
sequence (UTF-8 being a bijection between JS strings and their encodings,
this identification is sound at the framing layer).

The ECMAScript builtins `JSON.stringify` / `JSON.parse` are modelled by an
executable serializer and recursive-descent parser over an inductive `Json`
value type (numbers restricted to integers; IEEE floats are out of scope).
-/

/-- A JSON value, as decoded by `JSON.parse`. Strings (and object keys) are
byte sequences; numbers are integers. -/
inductive Json where
  | null : Json
  | bool (b : Bool) : Json
  | num (n : Int) : Json
  | str (s : List Nat) : Json
  | arr (elems : List Json) : Json
  | obj (members : List (List Nat × Json)) : Json

/-- `JSON.stringify` escaping of one string byte: `"` (34) and `\` (92) get a
backslash; every other byte is emitted as itself. -/
def escapeByte (b : Nat) : List Nat :=
  if b = 34 ∨ b = 92 then [92, b] else [b]

/-- Escape a whole string body. -/
def escapeList (s : List Nat) : List Nat :=
  s.flatMap escapeByte

/-- Decimal digit bytes of `n`, most significant first (empty for `0`). -/
def natDigitBytes (n : Nat) : List Nat :=
  ((Nat.digits 10 n).map (fun d => d + 48)).reverse

/-- Decimal rendering of a natural number, as `JSON.stringify` prints it. -/
def natBytes (n : Nat) : List Nat :=
  if n = 0 then [48] else natDigitBytes n

/-- Decimal rendering of an integer. -/
def intBytes : Int → List Nat
  | Int.ofNat n => natBytes n
  | Int.negSucc m => 45 :: natBytes (m + 1)

mutual

/-- Model of `JSON.stringify` on acyclic values: the UTF-8 bytes of the JSON
text (no whitespace, members and elements in order). -/
def Json.stringify : Json → List Nat
  | .null => [110, 117, 108, 108]
  | .bool true => [116, 114, 117, 101]
  | .bool false => [102, 97, 108, 115, 101]
  | .num n => intBytes n
  | .str s => 34 :: (escapeList s ++ [34])
  | .arr xs => 91 :: (stringifyElems xs ++ [93])
  | .obj ms => 123 :: (stringifyMembers ms ++ [125])

/-- Array elements, comma separated. -/
def stringifyElems : List Json → List Nat
  | [] => []
  | [x] => x.stringify
  | x :: y :: rest => x.stringify ++ 44 :: stringifyElems (y :: rest)

/-- Object members, comma separated, each `"key":value`. -/
def stringifyMembers : List (List Nat × Json) → List Nat
  | [] => []
  | [(k, v)] => 34 :: (escapeList k ++ [34, 58]) ++ v.stringify
  | (k, v) :: m :: rest =>
      (34 :: (escapeList k ++ [34, 58]) ++ v.stringify) ++
        44 :: stringifyMembers (m :: rest)

end

/-- Is `b` the byte of a decimal digit? -/
def isDigitB (b : Nat) : Bool :=
  decide (48 ≤ b) && decide (b ≤ 57)

/-- Split a maximal run of digit bytes off the front of the input. -/
def takeDigits : List Nat → List Nat × List Nat
  | [] => ([], [])
  | b :: rest =>
    if isDigitB b then
      let (ds, r) := takeDigits rest
      (b :: ds, r)
    else ([], b :: rest)

/-- Numeric value of a big-endian run of digit bytes. -/
def digitsVal (ds : List Nat) : Nat :=
  ds.foldl (fun a d => a * 10 + (d - 48)) 0

/-- Parse a nonempty run of digit bytes into a natural number. -/
def parseNat (input : List Nat) : Option (Nat × List Nat) :=
  match takeDigits input with
  | ([], _) => none
  | (ds, rest) => some (digitsVal ds, rest)

/-- Parse a string body up to (and consuming) the closing quote,
undoing the `escapeByte` escapes. -/
def parseStringBody : List Nat → Option (List Nat × List Nat)
  | [] => none
  | b :: rest =>
    if b = 34 then some ([], rest)
    else if b = 92 then
      match rest with
      | [] => none
      | b2 :: rest2 =>
        if b2 = 34 ∨ b2 = 92 then
          match parseStringBody rest2 with
          | some (s, r) => some (b2 :: s, r)
          | none => none
        else none
    else
      match parseStringBody rest with
      | some (s, r) => some (b :: s, r)
      | none => none

/-- Consume an expected literal byte sequence and return `v`. -/
def expectLit (lit : List Nat) (input : List Nat) (v : Json) :
    Option (Json × List Nat) :=
  if input.take lit.length = lit then some (v, input.drop lit.length) else none

mutual

/-- Model of one `JSON.parse` grammar step: parse a JSON value off the front
of the input. Fueled to make the mutual recursion structural; the top-level
wrapper supplies enough fuel for any input. -/
def parseValue : Nat → List Nat → Option (Json × List Nat)
  | 0, _ => none
  | _ + 1, [] => none
  | f + 1, b :: r =>
    if b = 110 then expectLit [117, 108, 108] r .null
    else if b = 116 then expectLit [114, 117, 101] r (.bool true)
    else if b = 102 then expectLit [97, 108, 115, 101] r (.bool false)
    else if b = 34 then
      match parseStringBody r with
      | some (s, r2) => some (.str s, r2)
      | none => none
    else if b = 45 then
      match parseNat r with
      | some (n, r2) => some (.num (-(n : Int)), r2)
      | none => none
    else if b = 91 then
      if r.head? = some 93 then some (.arr [], r.tail)
      else
        match parseElems f r with
        | some (xs, r2) => some (.arr xs, r2)
        | none => none
    else if b = 123 then
      if r.head? = some 125 then some (.obj [], r.tail)
      else
        match parseMembers f r with
        | some (ms, r2) => some (.obj ms, r2)
        | none => none
    else if isDigitB b then
      match parseNat (b :: r) with
      | some (n, r2) => some (.num (n : Int), r2)
      | none => none
    else none

/-- Parse one or more comma-separated array elements and the closing `]`. -/
def parseElems : Nat → List Nat → Option (List Json × List Nat)
  | 0, _ => none
  | f + 1, input =>
    match parseValue f input with
    | some (v, 44 :: r) =>
      match parseElems f r with
      | some (xs, r2) => some (v :: xs, r2)
      | none => none
    | some (v, 93 :: r) => some ([v], r)
    | _ => none

/-- Parse one or more comma-separated object members and the closing
curly bracket. -/
def parseMembers : Nat → List Nat → Option (List (List Nat × Json) × List Nat)
  | 0, _ => none
  | f + 1, 34 :: r =>
    match parseStringBody r with
    | some (k, 58 :: r2) =>
      match parseValue f r2 with
      | some (v, 44 :: r3) =>
        match parseMembers f r3 with
        | some (ms, r4) => some ((k, v) :: ms, r4)
        | none => none
      | some (v, 125 :: r3) => some ([(k, v)], r3)
      | _ => none
    | _ => none
  | _ + 1, _ => none

end

/-- Model of `JSON.parse` on a payload's bytes: `some` value on a complete
well-formed JSON text, `none` when `JSON.parse` would throw. -/
def JSON_parse (payload : List Nat) : Option Json :=
  match parseValue (payload.length + 1) payload with
  | some (v, []) => some v
  | _ => none

example : JSON_parse [110, 117, 108, 108] = some .null := rfl
example : JSON_parse [123] = none := rfl
example : JSON_parse [] = none := rfl
example : JSON_parse [123, 125] = some (.obj []) := rfl
example : JSON_parse [91, 49, 50, 44, 116, 114, 117, 101, 93]
    = some (.arr [.num 12, .bool true]) := rfl
example : JSON_parse [45, 51] = some (.num (-3)) := rfl

/-- A JSON-stringifiable-or-not JavaScript value handed to `emit`. `circular`
stands for any value `JSON.stringify` rejects (e.g. an object containing a
reference to itself). -/
inductive JSValue where
  | serializable (j : Json)
  | circular

/-- Model of `JSON.stringify` as called by `emit`: `none` when the serializer
throws. -/
def JSON_stringify : JSValue → Option (List Nat)
  | .serializable j => some j.stringify
  | .circular => none

/-- The `type` tag carried by a `ChromeNativeBridgeError` (`main.ts`, line 7). -/
inductive ErrType where
  | SEND_ERROR
  | RECEIVE_ERROR
deriving DecidableEq

/-- One observable callback of the decoder: an `onMessage(message)` call or an
`onError(err, rawData)` call. -/
inductive BridgeEvent where
  | message (m : Json)
  | error (t : ErrType) (raw : List Nat)

/-- The mutable reassembly state of the bridge (`main.ts`, lines 45-47). -/
structure DecoderState where
  hasNextMessageLength : Bool
  nextMessageLength : Nat
  nextMessageBuffer : List Nat
deriving DecidableEq

/-- Decoder state at construction: flag `false`, length `0`, empty buffer. -/
def initialDecoderState : DecoderState := ⟨false, 0, []⟩

/-- `buffer.readUInt32LE(0)`: the first four bytes as an unsigned
little-endian 32-bit integer (only used on buffers of length at least 4). -/
def readUInt32LE : List Nat → Nat
  | b0 :: b1 :: b2 :: b3 :: _ => b0 + 256 * b1 + 65536 * b2 + 16777216 * b3
  | _ => 0

/-- `buffer.writeUInt32LE(n)` into a fresh 4-byte buffer (`emit`, lines
210-211); `n` is in range in every use modelled here. -/
def writeUInt32LE (n : Nat) : List Nat :=
  [n % 256, n / 256 % 256, n / 65536 % 256, n / 16777216 % 256]

/-- First half of `parseNextMessage` (lines 142-152): if the length of the
next message is not known yet and at least 4 bytes are buffered, consume the
first 4 bytes as the little-endian length. -/
def readLengthIfNeeded (s : DecoderState) : DecoderState :=
  if s.hasNextMessageLength = false ∧ 4 ≤ s.nextMessageBuffer.length then
    ⟨true, readUInt32LE s.nextMessageBuffer, s.nextMessageBuffer.drop 4⟩
  else s

/-- The callback caused by one extracted payload (lines 172-187): a message
when `JSON.parse` succeeds, otherwise an error tagged `RECEIVE_ERROR`
carrying the raw payload text. -/
def frameEvent (payload : List Nat) : BridgeEvent :=
  match JSON_parse payload with
  | some m => .message m
  | none => .error .RECEIVE_ERROR payload

theorem readLengthIfNeeded_measure (s : DecoderState) :
    2 * (readLengthIfNeeded s).nextMessageBuffer.length
      + (if (readLengthIfNeeded s).hasNextMessageLength then 1 else 0)
    ≤ 2 * s.nextMessageBuffer.length
      + (if s.hasNextMessageLength then 1 else 0) := by
  unfold readLengthIfNeeded
  split
  · next h =>
    simp [List.length_drop, h.1]
    omega
  · exact Nat.le_refl _

/-- `parseNextMessage` (lines 140-193): with the length known and enough
bytes buffered, slice off the payload, clear the length flag, report the
parse outcome, and recurse on the remaining buffer; otherwise stop. Returns
the final state together with the callbacks fired, in order. -/
def parseNextMessage (s : DecoderState) : DecoderState × List BridgeEvent :=
  if h : (readLengthIfNeeded s).hasNextMessageLength = true
      ∧ (readLengthIfNeeded s).nextMessageLength
          ≤ (readLengthIfNeeded s).nextMessageBuffer.length then
    let rest := parseNextMessage
      ⟨false, (readLengthIfNeeded s).nextMessageLength,
        (readLengthIfNeeded s).nextMessageBuffer.drop
          (readLengthIfNeeded s).nextMessageLength⟩
    (rest.1,
      frameEvent ((readLengthIfNeeded s).nextMessageBuffer.take
        (readLengthIfNeeded s).nextMessageLength) :: rest.2)
  else (readLengthIfNeeded s, [])
termination_by 2 * s.nextMessageBuffer.length + (if s.hasNextMessageLength then 1 else 0)
decreasing_by
  have hm := readLengthIfNeeded_measure s
  simp [h.1] at hm
  simp [List.length_drop]
  omega

/-- `onDataChunk` (lines 129-135): append the chunk to the buffer and run the
extraction loop. -/
def onDataChunk (s : DecoderState) (chunk : List Nat) :
    DecoderState × List BridgeEvent :=
  parseNextMessage ⟨s.hasNextMessageLength, s.nextMessageLength,
    s.nextMessageBuffer ++ chunk⟩

/-- Feed a sequence of chunks one at a time, collecting the callbacks. -/
def feedAll (s : DecoderState) : List (List Nat) → DecoderState × List BridgeEvent
  | [] => (s, [])
  | c :: cs =>
    let r1 := onDataChunk s c
    let r2 := feedAll r1.1 cs
    (r2.1, r1.2 ++ r2.2)

/-- The frame `emit` builds for a payload (lines 210-213). -/
def mkFrame (payload : List Nat) : List Nat :=
  writeUInt32LE payload.length ++ payload

/-- `emit` (lines 200-214): serialize, rethrow a serialization failure tagged
`SEND_ERROR`, else return the single length-prefixed buffer written. -/
def emit (v : JSValue) : Except ErrType (List Nat) :=
  match JSON_stringify v with
  | none => .error .SEND_ERROR
  | some message => .ok (writeUInt32LE message.length ++ message)

/-- `emit` as observed on the outbound stream, modelled as the list of
buffers written to it: on success exactly one buffer is appended, on failure
the error is thrown to the caller and the stream is untouched. -/
def emitToStream (out : List (List Nat)) (v : JSValue) :
    List (List Nat) × Option ErrType :=
  match emit v with
  | .ok buf => (out ++ [buf], none)
  | .error e => (out, some e)

/-- Result of `Number(s)` in the model: a natural number for nonempty
all-digit strings, `NaN` otherwise (non-integer numeric forms are IEEE
floats, out of scope here, and never arise in the claims). -/
inductive JsNum where
  | nan
  | num (n : Nat)
deriving DecidableEq

/-- `String.prototype.includes`: does `pat` occur contiguously in the
string? -/
def jsIncludes (pat : List Char) : List Char → Bool
  | [] => pat.isEmpty
  | c :: rest => pat.isPrefixOf (c :: rest) || jsIncludes pat rest

/-- `Number(s)` on the strings relevant here. -/
def jsToNumber (s : List Char) : JsNum :=
  if s ≠ [] ∧ s.all Char.isDigit then
    .num (digitsVal (s.map Char.toNat))
  else .nan

/-- The two constructor-time fields assigned by `parseAndAssignArgs`. -/
structure ArgsResult where
  origin : Option (List Char)
  parentWindow : Option JsNum
deriving DecidableEq

/-- The characters of `--parent-window=`. -/
def parentWindowMarker : List Char :=
  ['-', '-', 'p', 'a', 'r', 'e', 'n', 't', '-', 'w', 'i', 'n', 'd', 'o', 'w', '=']

/-- `parseAndAssignArgs` (lines 112-124): `origin` is `args[2]` (undefined,
i.e. `none`, when absent); if `args[3]` is truthy and contains
`--parent-window=`, split it on `=` and, if the piece after the first `=` is
nonempty, assign `Number(piece)` to `parentWindow`. -/
def parseAndAssignArgs (args : List (List Char)) : ArgsResult :=
  let origin := args[2]?
  let parentWindow :=
    match args[3]? with
    | some a =>
      if a ≠ [] ∧ jsIncludes parentWindowMarker a then
        match (a.splitOn '=')[1]? with
        | some pw => if pw ≠ [] then some (jsToNumber pw) else none
        | none => none
      else none
    | none => none
  ⟨origin, parentWindow⟩

/-- The bridge as relevant to decoding: its stream subscription
(established in the constructor, line 102), its decoder state, and the two
fields parsed from the arguments. -/
structure Bridge where
  subscribed : Bool
  decoder : DecoderState
  origin : Option (List Char)
  parentWindow : Option JsNum
deriving DecidableEq

/-- The bridge right after construction. -/
def mkBridge (args : List (List Char)) : Bridge :=
  ⟨true, initialDecoderState, (parseAndAssignArgs args).origin,
    (parseAndAssignArgs args).parentWindow⟩

/-- `close` (lines 219-224): unsubscribe from data chunks and reset the three
decoder fields. -/
def Bridge.close (b : Bridge) : Bridge :=
  ⟨false, ⟨false, 0, []⟩, b.origin, b.parentWindow⟩

/-- A chunk produced by the inbound stream: it reaches `onDataChunk` only
while the bridge is subscribed. -/
def deliverChunk (b : Bridge) (chunk : List Nat) : Bridge × List BridgeEvent :=
  if b.subscribed then
    let r := onDataChunk b.decoder chunk
    (⟨b.subscribed, r.1, b.origin, b.parentWindow⟩, r.2)
  else (b, [])

/-- Appending a chunk to a decoder state's buffer (the first line of
`onDataChunk`). -/
def DecoderState.appendBuf (s : DecoderState) (extra : List Nat) : DecoderState :=
  ⟨s.hasNextMessageLength, s.nextMessageLength, s.nextMessageBuffer ++ extra⟩

theorem onDataChunk_eq (s : DecoderState) (chunk : List Nat) :
    onDataChunk s chunk = parseNextMessage (s.appendBuf chunk) := rfl

/-- The 4-byte little-endian length field reads back as the length it
encodes, for lengths in 32-bit range, whatever follows it. -/
theorem readUInt32LE_writeUInt32LE (n : Nat) (tail : List Nat) (h : n < 4294967296) :
    readUInt32LE (writeUInt32LE n ++ tail) = n := by
  simp only [writeUInt32LE, List.cons_append, List.nil_append, readUInt32LE]
  omega

/-- `readUInt32LE` only looks at the first four bytes. -/
theorem readUInt32LE_append (l t : List Nat) (h : 4 ≤ l.length) :
    readUInt32LE (l ++ t) = readUInt32LE l := by
  match l, h with
  | b0 :: b1 :: b2 :: b3 :: rest, _ => rfl

theorem readLengthIfNeeded_noop (s : DecoderState)
    (h : s.hasNextMessageLength = true) : readLengthIfNeeded s = s := by
  unfold readLengthIfNeeded
  rw [if_neg]
  simp [h]

theorem readLengthIfNeeded_small (s : DecoderState)
    (h : s.nextMessageBuffer.length < 4) : readLengthIfNeeded s = s := by
  unfold readLengthIfNeeded
  rw [if_neg]
  omega

theorem readLengthIfNeeded_fire (s : DecoderState)
    (h1 : s.hasNextMessageLength = false) (h2 : 4 ≤ s.nextMessageBuffer.length) :
    readLengthIfNeeded s
      = ⟨true, readUInt32LE s.nextMessageBuffer, s.nextMessageBuffer.drop 4⟩ := by
  unfold readLengthIfNeeded
  rw [if_pos ⟨h1, h2⟩]

theorem readLengthIfNeeded_idem (s : DecoderState) :
    readLengthIfNeeded (readLengthIfNeeded s) = readLengthIfNeeded s := by
  by_cases h : s.hasNextMessageLength = false ∧ 4 ≤ s.nextMessageBuffer.length
  · rw [readLengthIfNeeded_fire s h.1 h.2]
    exact readLengthIfNeeded_noop _ rfl
  · have hs : readLengthIfNeeded s = s := by
      unfold readLengthIfNeeded
      rw [if_neg h]
    rw [hs, hs]

/-- Reading the length field commutes with appending bytes behind the
buffer, provided the length parse does not depend on the appended bytes
(the flag is set, or at least 4 bytes are already buffered). -/
theorem readLengthIfNeeded_append (s : DecoderState) (extra : List Nat)
    (h : s.hasNextMessageLength = true ∨ 4 ≤ s.nextMessageBuffer.length) :
    readLengthIfNeeded (s.appendBuf extra)
      = (readLengthIfNeeded s).appendBuf extra := by
  rcases hb : s.hasNextMessageLength with _ | _
  · have h4 : 4 ≤ s.nextMessageBuffer.length := by
      rcases h with h | h
      · rw [hb] at h; exact absurd h (by simp)
      · exact h
    have hfire := readLengthIfNeeded_fire s hb h4
    have hfire2 : readLengthIfNeeded (s.appendBuf extra)
        = ⟨true, readUInt32LE (s.nextMessageBuffer ++ extra),
            (s.nextMessageBuffer ++ extra).drop 4⟩ := by
      apply readLengthIfNeeded_fire
      · exact hb
      · simp only [DecoderState.appendBuf, List.length_append]
        omega
    rw [hfire2, hfire, readUInt32LE_append _ _ h4,
      List.drop_append_of_le_length h4]
    rfl
  · rw [readLengthIfNeeded_noop (s.appendBuf extra) (by exact hb),
      readLengthIfNeeded_noop s hb]

/-- One-step unfolding of `parseNextMessage` when no complete frame is
available. -/
theorem parseNextMessage_stop (s : DecoderState)
    (h : ¬((readLengthIfNeeded s).hasNextMessageLength = true
      ∧ (readLengthIfNeeded s).nextMessageLength
          ≤ (readLengthIfNeeded s).nextMessageBuffer.length)) :
    parseNextMessage s = (readLengthIfNeeded s, []) := by
  unfold parseNextMessage
  rw [dif_neg h]

/-- One-step unfolding of `parseNextMessage` when a complete frame is
buffered: slice the payload, report it, recurse. -/
theorem parseNextMessage_step (s : DecoderState)
    (h : (readLengthIfNeeded s).hasNextMessageLength = true
      ∧ (readLengthIfNeeded s).nextMessageLength
          ≤ (readLengthIfNeeded s).nextMessageBuffer.length) :
    parseNextMessage s =
      ((parseNextMessage ⟨false, (readLengthIfNeeded s).nextMessageLength,
          (readLengthIfNeeded s).nextMessageBuffer.drop
            (readLengthIfNeeded s).nextMessageLength⟩).1,
        frameEvent ((readLengthIfNeeded s).nextMessageBuffer.take
            (readLengthIfNeeded s).nextMessageLength)
          :: (parseNextMessage ⟨false, (readLengthIfNeeded s).nextMessageLength,
              (readLengthIfNeeded s).nextMessageBuffer.drop
                (readLengthIfNeeded s).nextMessageLength⟩).2) := by
  conv_lhs => rw [parseNextMessage]
  rw [dif_pos h]

/-- `parseNextMessage` factors through the length-reading half. -/
theorem parseNextMessage_readLength (s : DecoderState) :
    parseNextMessage s = parseNextMessage (readLengthIfNeeded s) := by
  by_cases h : (readLengthIfNeeded s).hasNextMessageLength = true
      ∧ (readLengthIfNeeded s).nextMessageLength
          ≤ (readLengthIfNeeded s).nextMessageBuffer.length
  · have h' := h
    rw [← readLengthIfNeeded_idem s] at h'
    rw [parseNextMessage_step s h, parseNextMessage_step _ h',
      readLengthIfNeeded_idem]
  · have h' := h
    rw [← readLengthIfNeeded_idem s] at h'
    rw [parseNextMessage_stop s h, parseNextMessage_stop _ h',
      readLengthIfNeeded_idem]

/-- The quiescence invariant of the decoder: when the extraction loop rests,
fewer than 4 bytes are buffered if the length is unknown, and fewer than the
pending length if it is known. -/
def DecoderInv (s : DecoderState) : Prop :=
  (s.hasNextMessageLength = false → s.nextMessageBuffer.length < 4)
    ∧ (s.hasNextMessageLength = true
        → s.nextMessageBuffer.length < s.nextMessageLength)

theorem decoderInv_initial : DecoderInv initialDecoderState := by
  constructor
  · intro _
    simp [initialDecoderState]
  · intro h
    simp [initialDecoderState] at h

/-- The state `parseNextMessage` leaves behind always satisfies the
invariant. -/
theorem decoderInv_parseNextMessage (s : DecoderState) :
    DecoderInv (parseNextMessage s).1 := by
  induction s using parseNextMessage.induct with
  | case1 s h ih =>
    rw [parseNextMessage_step s h]
    exact ih
  | case2 s h =>
    rw [parseNextMessage_stop s h]
    show DecoderInv (readLengthIfNeeded s)
    constructor
    · intro hf
      rcases hb : s.hasNextMessageLength with _ | _
      · by_cases h4 : 4 ≤ s.nextMessageBuffer.length
        · rw [readLengthIfNeeded_fire s hb h4] at hf
          simp at hf
        · rw [readLengthIfNeeded_small s (by omega)] at hf ⊢
          omega
      · rw [readLengthIfNeeded_noop s hb] at hf
        rw [hb] at hf
        simp at hf
    · intro ht
      have hle : ¬ (readLengthIfNeeded s).nextMessageLength
          ≤ (readLengthIfNeeded s).nextMessageBuffer.length :=
        fun hle => h ⟨ht, hle⟩
      omega

/-- On a state already satisfying the invariant the extraction loop is a
no-op. -/
theorem parseNextMessage_of_inv (s : DecoderState) (hs : DecoderInv s) :
    parseNextMessage s = (s, []) := by
  have hrl : readLengthIfNeeded s = s := by
    rcases hb : s.hasNextMessageLength with _ | _
    · exact readLengthIfNeeded_small s (hs.1 hb)
    · exact readLengthIfNeeded_noop s hb
  rw [parseNextMessage_stop]
  · rw [hrl]
  · rw [hrl]
    rintro ⟨ht, hle⟩
    have := hs.2 ht
    omega

/-- Draining after appending bytes equals draining first and then draining
the leftover state with the appended bytes: the extraction loop never
depends on where a chunk boundary fell. -/
theorem parseNextMessage_appendBuf (extra : List Nat) (s : DecoderState) :
    parseNextMessage (s.appendBuf extra)
      = ((parseNextMessage ((parseNextMessage s).1.appendBuf extra)).1,
          (parseNextMessage s).2
            ++ (parseNextMessage ((parseNextMessage s).1.appendBuf extra)).2) := by
  induction s using parseNextMessage.induct with
  | case1 s h ih =>
    have hrl_or : s.hasNextMessageLength = true ∨ 4 ≤ s.nextMessageBuffer.length := by
      rcases hb : s.hasNextMessageLength with _ | _
      · right
        by_contra h4
        rw [readLengthIfNeeded_small s (by omega)] at h
        rw [hb] at h
        simp at h
      · left
        rfl
    have h_app := readLengthIfNeeded_append s extra hrl_or
    have c1 : (readLengthIfNeeded (s.appendBuf extra)).hasNextMessageLength = true := by
      rw [h_app]
      exact h.1
    have c2 : (readLengthIfNeeded (s.appendBuf extra)).nextMessageLength
        ≤ (readLengthIfNeeded (s.appendBuf extra)).nextMessageBuffer.length := by
      rw [h_app]
      show (readLengthIfNeeded s).nextMessageLength
        ≤ ((readLengthIfNeeded s).nextMessageBuffer ++ extra).length
      rw [List.length_append]
      omega
    rw [parseNextMessage_step (s.appendBuf extra) ⟨c1, c2⟩,
      parseNextMessage_step s h, h_app]
    simp only [DecoderState.appendBuf] at ih ⊢
    rw [List.take_append_of_le_length h.2, List.drop_append_of_le_length h.2, ih]
    simp
  | case2 s h =>
    rw [parseNextMessage_stop s h]
    show parseNextMessage (s.appendBuf extra)
      = ((parseNextMessage ((readLengthIfNeeded s).appendBuf extra)).1,
          [] ++ (parseNextMessage ((readLengthIfNeeded s).appendBuf extra)).2)
    rw [List.nil_append]
    rcases hb : s.hasNextMessageLength with _ | _
    · by_cases h4 : 4 ≤ s.nextMessageBuffer.length
      · have h_app := readLengthIfNeeded_append s extra (Or.inr h4)
        rw [← h_app, ← parseNextMessage_readLength]
      · rw [readLengthIfNeeded_small s (by omega)]
    · rw [readLengthIfNeeded_noop s hb]

/-- Feeding the concatenation of two chunks equals feeding them one after
the other, with the callbacks concatenated in order. -/
theorem onDataChunk_append (s : DecoderState) (c1 c2 : List Nat) :
    onDataChunk s (c1 ++ c2)
      = ((onDataChunk (onDataChunk s c1).1 c2).1,
          (onDataChunk s c1).2 ++ (onDataChunk (onDataChunk s c1).1 c2).2) := by
  have hb : s.appendBuf (c1 ++ c2) = (s.appendBuf c1).appendBuf c2 := by
    simp [DecoderState.appendBuf]
  rw [onDataChunk_eq, hb, parseNextMessage_appendBuf c2 (s.appendBuf c1)]
  rfl

/-- Feeding a list of chunks one at a time equals feeding their
concatenation at once, starting from any quiescent state. -/
theorem feedAll_join (s : DecoderState) (hs : DecoderInv s)
    (chunks : List (List Nat)) :
    feedAll s chunks = onDataChunk s chunks.flatten := by
  induction chunks generalizing s with
  | nil =>
    show (s, []) = parseNextMessage (s.appendBuf [])
    have : s.appendBuf [] = s := by
      simp [DecoderState.appendBuf]
    rw [this, parseNextMessage_of_inv s hs]
  | cons c cs ih =>
    show ((feedAll (onDataChunk s c).1 cs).1,
        (onDataChunk s c).2 ++ (feedAll (onDataChunk s c).1 cs).2)
      = onDataChunk s (c ++ cs.flatten)
    rw [onDataChunk_append s c cs.flatten,
      ih (onDataChunk s c).1 (decoderInv_parseNextMessage _)]

/-- Feeding one whole frame from a quiescent empty-buffer state consumes it
entirely and fires exactly the callback of its payload. -/
theorem onDataChunk_mkFrame (L : Nat) (p : List Nat) (h : p.length < 4294967296) :
    onDataChunk ⟨false, L, []⟩ (mkFrame p)
      = (⟨false, p.length, []⟩, [frameEvent p]) := by
  have hbuf : (DecoderState.appendBuf ⟨false, L, []⟩ (mkFrame p)).nextMessageBuffer
      = writeUInt32LE p.length ++ p := by
    simp [DecoderState.appendBuf, mkFrame]
  have hfire : readLengthIfNeeded (DecoderState.appendBuf ⟨false, L, []⟩ (mkFrame p))
      = ⟨true, p.length, p⟩ := by
    rw [readLengthIfNeeded_fire]
    · rw [hbuf, readUInt32LE_writeUInt32LE p.length p h]
      show DecoderState.mk true p.length ((writeUInt32LE p.length ++ p).drop 4) = _
      simp [writeUInt32LE]
    · rfl
    · rw [hbuf]
      simp [writeUInt32LE]
  rw [onDataChunk_eq, parseNextMessage_step]
  · rw [hfire]
    show ((parseNextMessage ⟨false, p.length, p.drop p.length⟩).1,
      frameEvent (p.take p.length) :: (parseNextMessage ⟨false, p.length, p.drop p.length⟩).2) = _
    rw [List.take_length, List.drop_length,
      parseNextMessage_of_inv ⟨false, p.length, []⟩ (by constructor <;> simp)]
  · rw [hfire]
    exact ⟨rfl, Nat.le_refl _⟩

/-- The input after a serialized value never starts with a digit byte, so a
number parse cannot overrun its rendering. -/
def delimOkB : List Nat → Bool
  | [] => true
  | b :: _ => !isDigitB b

theorem takeDigits_append (ds rest : List Nat)
    (hds : ∀ d ∈ ds, isDigitB d = true) (hrest : delimOkB rest = true) :
    takeDigits (ds ++ rest) = (ds, rest) := by
  induction ds with
  | nil =>
    rw [List.nil_append]
    cases rest with
    | nil => rfl
    | cons b r =>
      show takeDigits (b :: r) = ([], b :: r)
      unfold takeDigits
      rw [if_neg]
      simp only [delimOkB, Bool.not_eq_true'] at hrest
      simp [hrest]
  | cons d ds ihd =>
    show takeDigits (d :: (ds ++ rest)) = (d :: ds, rest)
    unfold takeDigits
    rw [if_pos (hds d (by simp)), ihd (fun x hx => hds x (by simp [hx]))]

theorem foldl_digitsVal (L : List Nat) (acc : Nat) :
    List.foldl (fun a d => a * 10 + (d - 48)) acc
        ((L.map (fun d => d + 48)).reverse)
      = acc * 10 ^ L.length + Nat.ofDigits 10 L := by
  induction L generalizing acc with
  | nil => simp [Nat.ofDigits_nil]
  | cons d L ihd =>
    rw [List.map_cons, List.reverse_cons, List.foldl_append, ihd acc]
    show (acc * 10 ^ L.length + Nat.ofDigits 10 L) * 10 + (d + 48 - 48) = _
    rw [Nat.ofDigits_cons, List.length_cons, pow_succ]
    push_cast
    ring_nf

theorem digitsVal_natBytes (n : Nat) : digitsVal (natBytes n) = n := by
  by_cases h0 : n = 0
  · subst h0
    rfl
  · unfold natBytes
    rw [if_neg h0]
    unfold digitsVal natDigitBytes
    rw [foldl_digitsVal]
    simp [Nat.ofDigits_digits]

theorem natBytes_digits (n : Nat) : ∀ d ∈ natBytes n, isDigitB d = true := by
  intro d hd
  unfold natBytes at hd
  by_cases h0 : n = 0
  · rw [if_pos h0] at hd
    simp at hd
    simp [hd, isDigitB]
  · rw [if_neg h0] at hd
    unfold natDigitBytes at hd
    rw [List.mem_reverse, List.mem_map] at hd
    obtain ⟨e, he, rfl⟩ := hd
    have := Nat.digits_lt_base (by norm_num) he
    simp [isDigitB]
    omega

theorem natBytes_ne_nil (n : Nat) : natBytes n ≠ [] := by
  unfold natBytes
  by_cases h0 : n = 0
  · simp [h0]
  · rw [if_neg h0]
    unfold natDigitBytes
    simp [Nat.digits_ne_nil_iff_ne_zero.mpr h0]

theorem natBytes_cons (n : Nat) :
    ∃ b t, natBytes n = b :: t ∧ isDigitB b = true := by
  rcases hh : natBytes n with _ | ⟨b, t⟩
  · exact absurd hh (natBytes_ne_nil n)
  · exact ⟨b, t, rfl, natBytes_digits n b (by rw [hh]; simp)⟩

theorem parseNat_natBytes (n : Nat) (rest : List Nat)
    (hrest : delimOkB rest = true) :
    parseNat (natBytes n ++ rest) = some (n, rest) := by
  unfold parseNat
  rw [takeDigits_append (natBytes n) rest (natBytes_digits n) hrest]
  obtain ⟨b, t, hbt, _⟩ := natBytes_cons n
  rw [hbt]
  show some (digitsVal (b :: t), rest) = _
  rw [← hbt, digitsVal_natBytes]

theorem parseStringBody_escape (s : List Nat) (rest : List Nat) :
    parseStringBody (escapeList s ++ 34 :: rest) = some (s, rest) := by
  induction s with
  | nil =>
    show parseStringBody (34 :: rest) = some ([], rest)
    unfold parseStringBody
    rw [if_pos rfl]
  | cons b s ihb =>
    by_cases hb : b = 34 ∨ b = 92
    · have he : escapeList (b :: s) ++ 34 :: rest
          = 92 :: b :: (escapeList s ++ 34 :: rest) := by
        simp [escapeList, escapeByte, if_pos hb]
      rw [he]
      show parseStringBody (92 :: b :: (escapeList s ++ 34 :: rest)) = _
      unfold parseStringBody
      rw [if_neg (by norm_num), if_pos rfl]
      show (if b = 34 ∨ b = 92 then
          match parseStringBody (escapeList s ++ 34 :: rest) with
          | some (s2, r) => some (b :: s2, r)
          | none => none
        else none) = _
      rw [if_pos hb, ihb]
    · have h34 : b ≠ 34 := fun h => hb (Or.inl h)
      have h92 : b ≠ 92 := fun h => hb (Or.inr h)
      have he : escapeList (b :: s) ++ 34 :: rest
          = b :: (escapeList s ++ 34 :: rest) := by
        simp [escapeList, escapeByte, if_neg hb]
      rw [he]
      show parseStringBody (b :: (escapeList s ++ 34 :: rest)) = _
      unfold parseStringBody
      rw [if_neg h34, if_neg h92, ihb]

theorem stringify_head_ne (v : Json) :
    ∃ b t, v.stringify = b :: t ∧ b ≠ 93 := by
  cases v with
  | null => exact ⟨110, _, rfl, by norm_num⟩
  | bool b =>
    cases b with
    | true => exact ⟨116, _, rfl, by norm_num⟩
    | false => exact ⟨102, _, rfl, by norm_num⟩
  | num n =>
    cases n with
    | ofNat m =>
      obtain ⟨b, t, hbt, hd⟩ := natBytes_cons m
      refine ⟨b, t, ?_, ?_⟩
      · show intBytes (Int.ofNat m) = b :: t
        rw [show intBytes (Int.ofNat m) = natBytes m from rfl, hbt]
      · simp [isDigitB] at hd
        omega
    | negSucc m => exact ⟨45, _, rfl, by norm_num⟩
  | str s => exact ⟨34, _, rfl, by norm_num⟩
  | arr xs => exact ⟨91, _, rfl, by norm_num⟩
  | obj ms => exact ⟨123, _, rfl, by norm_num⟩

theorem stringifyElems_cons (x : Json) (l : List Json) :
    ∃ u, stringifyElems (x :: l) = x.stringify ++ u := by
  cases l with
  | nil => exact ⟨[], by simp [stringifyElems]⟩
  | cons y t => exact ⟨44 :: stringifyElems (y :: t), rfl⟩

theorem parseElems_stringify :
    ∀ xs : List Json, xs ≠ [] →
      (∀ x ∈ xs, ∀ f rest, x.stringify.length ≤ f → delimOkB rest = true →
        parseValue f (x.stringify ++ rest) = some (x, rest)) →
      ∀ f rest, (stringifyElems xs).length + 1 ≤ f →
        parseElems f (stringifyElems xs ++ 93 :: rest) = some (xs, rest) := by
  intro xs
  induction xs with
  | nil => intro h; exact absurd rfl h
  | cons x l ihl =>
    intro _ IH f rest hf
    cases l with
    | nil =>
      have hxf : x.stringify.length + 1 ≤ f := by
        simpa [stringifyElems] using hf
      obtain ⟨f1, rfl⟩ : ∃ f1, f = f1 + 1 := ⟨f - 1, by omega⟩
      have hv := IH x (by simp) f1 (93 :: rest) (by omega) rfl
      show parseElems (f1 + 1) (x.stringify ++ 93 :: rest) = some ([x], rest)
      rw [parseElems, hv]
    | cons y t =>
      have hSE : stringifyElems (x :: y :: t)
          = x.stringify ++ 44 :: stringifyElems (y :: t) := rfl
      have hlen : x.stringify.length + (stringifyElems (y :: t)).length + 2 ≤ f := by
        rw [hSE] at hf
        simpa [List.length_append] using hf
      obtain ⟨f1, rfl⟩ : ∃ f1, f = f1 + 1 := ⟨f - 1, by omega⟩
      have hv := IH x (by simp) f1
        (44 :: (stringifyElems (y :: t) ++ 93 :: rest)) (by omega) rfl
      have hrec := ihl (by simp) (fun z hz => IH z (by simp [hz])) f1 rest (by omega)
      rw [hSE, List.append_assoc, List.cons_append]
      rw [parseElems, hv]
      simp only [hrec]

theorem parseMembers_stringify :
    ∀ ms : List (List Nat × Json), ms ≠ [] →
      (∀ m ∈ ms, ∀ f rest, m.2.stringify.length ≤ f → delimOkB rest = true →
        parseValue f (m.2.stringify ++ rest) = some (m.2, rest)) →
      ∀ f rest, (stringifyMembers ms).length + 1 ≤ f →
        parseMembers f (stringifyMembers ms ++ 125 :: rest) = some (ms, rest) := by
  intro ms
  induction ms with
  | nil => intro h; exact absurd rfl h
  | cons m l ihl =>
    obtain ⟨k, v⟩ := m
    intro _ IH f rest hf
    cases l with
    | nil =>
      have hsm : stringifyMembers [(k, v)]
          = 34 :: ((escapeList k ++ [34, 58]) ++ v.stringify) := rfl
      have hlen : v.stringify.length + 1 ≤ f := by
        rw [hsm] at hf
        simp only [List.length_cons, List.length_append] at hf
        omega
      obtain ⟨f1, rfl⟩ : ∃ f1, f = f1 + 1 := ⟨f - 1, by omega⟩
      have hv := IH (k, v) (by simp) f1 (125 :: rest)
        (by show v.stringify.length ≤ f1; omega) rfl
      rw [hsm]
      simp only [List.cons_append, List.append_assoc, List.nil_append]
      rw [parseMembers,
        parseStringBody_escape k (58 :: (v.stringify ++ 125 :: rest))]
      simp only [hv]
    | cons m2 t =>
      have hsm : stringifyMembers ((k, v) :: m2 :: t)
          = (34 :: ((escapeList k ++ [34, 58]) ++ v.stringify))
              ++ 44 :: stringifyMembers (m2 :: t) := rfl
      have hlen : v.stringify.length + (stringifyMembers (m2 :: t)).length + 2 ≤ f := by
        rw [hsm] at hf
        simp only [List.length_cons, List.length_append] at hf
        omega
      obtain ⟨f1, rfl⟩ : ∃ f1, f = f1 + 1 := ⟨f - 1, by omega⟩
      have hv := IH (k, v) (by simp) f1
        (44 :: (stringifyMembers (m2 :: t) ++ 125 :: rest))
        (by show v.stringify.length ≤ f1; omega) rfl
      have hrec := ihl (by simp) (fun z hz => IH z (by simp [hz])) f1 rest (by omega)
      rw [hsm]
      simp only [List.cons_append, List.append_assoc, List.nil_append]
      rw [parseMembers,
        parseStringBody_escape k
          (58 :: (v.stringify ++ 44 :: (stringifyMembers (m2 :: t) ++ 125 :: rest)))]
      simp only [hv, hrec]

theorem parseValue_stringify_aux :
    ∀ N : Nat, ∀ v : Json, sizeOf v ≤ N →
      ∀ f rest, v.stringify.length ≤ f → delimOkB rest = true →
        parseValue f (v.stringify ++ rest) = some (v, rest) := by
  intro N
  induction N with
  | zero =>
    intro v hv
    exact absurd hv (by cases v <;> simp_arith)
  | succ N ih =>
    intro v hv f rest hf hrest
    cases v with
    | null =>
      have h4 : 4 ≤ f := by simpa [Json.stringify] using hf
      obtain ⟨f1, rfl⟩ : ∃ f1, f = f1 + 1 := ⟨f - 1, by omega⟩
      show parseValue (f1 + 1) (110 :: 117 :: 108 :: 108 :: rest) = some (.null, rest)
      rw [parseValue]
      simp [expectLit]
    | bool b =>
      cases b with
      | true =>
        have h4 : 4 ≤ f := by simpa [Json.stringify] using hf
        obtain ⟨f1, rfl⟩ : ∃ f1, f = f1 + 1 := ⟨f - 1, by omega⟩
        show parseValue (f1 + 1) (116 :: 114 :: 117 :: 101 :: rest)
          = some (.bool true, rest)
        rw [parseValue]
        simp [expectLit]
      | false =>
        have h5 : 5 ≤ f := by simpa [Json.stringify] using hf
        obtain ⟨f1, rfl⟩ : ∃ f1, f = f1 + 1 := ⟨f - 1, by omega⟩
        show parseValue (f1 + 1) (102 :: 97 :: 108 :: 115 :: 101 :: rest)
          = some (.bool false, rest)
        rw [parseValue]
        simp [expectLit]
    | num n =>
      cases n with
      | ofNat m =>
        obtain ⟨b, t, hbt, hd⟩ := natBytes_cons m
        have hstr : Json.stringify (.num (Int.ofNat m)) = natBytes m := rfl
        have hlen : 1 ≤ f := by
          rw [hstr, hbt] at hf
          simp at hf
          omega
        obtain ⟨f1, rfl⟩ : ∃ f1, f = f1 + 1 := ⟨f - 1, by omega⟩
        have hb : 48 ≤ b ∧ b ≤ 57 := by simpa [isDigitB] using hd
        rw [hstr, hbt, List.cons_append, parseValue]
        rw [if_neg (by omega), if_neg (by omega), if_neg (by omega),
          if_neg (by omega), if_neg (by omega), if_neg (by omega),
          if_neg (by omega), if_pos hd]
        have harg : b :: (t ++ rest) = natBytes m ++ rest := by
          rw [hbt, List.cons_append]
        rw [harg, parseNat_natBytes m rest hrest]
        rfl
      | negSucc m =>
        have hstr : Json.stringify (.num (Int.negSucc m)) = 45 :: natBytes (m + 1) := rfl
        have hlen : 1 ≤ f := by
          rw [hstr] at hf
          simp at hf
          omega
        obtain ⟨f1, rfl⟩ : ∃ f1, f = f1 + 1 := ⟨f - 1, by omega⟩
        rw [hstr, List.cons_append, parseValue]
        rw [if_neg (by norm_num), if_neg (by norm_num), if_neg (by norm_num),
          if_neg (by norm_num), if_pos rfl]
        rw [parseNat_natBytes (m + 1) rest hrest]
        simp [Int.negSucc_eq]
    | str s =>
      have hstr : Json.stringify (.str s) = 34 :: (escapeList s ++ [34]) := rfl
      have hlen : 1 ≤ f := by
        rw [hstr] at hf
        simp at hf
        omega
      obtain ⟨f1, rfl⟩ : ∃ f1, f = f1 + 1 := ⟨f - 1, by omega⟩
      rw [hstr]
      simp only [List.cons_append, List.append_assoc, List.nil_append]
      rw [parseValue]
      rw [if_neg (by norm_num), if_neg (by norm_num), if_neg (by norm_num),
        if_pos rfl]
      rw [parseStringBody_escape s rest]
    | arr xs =>
      cases xs with
      | nil =>
        have h2 : 2 ≤ f := by simpa [Json.stringify, stringifyElems] using hf
        obtain ⟨f1, rfl⟩ : ∃ f1, f = f1 + 1 := ⟨f - 1, by omega⟩
        show parseValue (f1 + 1) (91 :: 93 :: rest) = some (.arr [], rest)
        rw [parseValue]
        rw [if_neg (by norm_num), if_neg (by norm_num), if_neg (by norm_num),
          if_neg (by norm_num), if_neg (by norm_num), if_pos rfl]
        simp
      | cons x l =>
        obtain ⟨b0, t0, hx, hb93⟩ := stringify_head_ne x
        obtain ⟨u, hu⟩ := stringifyElems_cons x l
        have hst : Json.stringify (.arr (x :: l))
            = 91 :: (stringifyElems (x :: l) ++ [93]) := rfl
        have hflen : (stringifyElems (x :: l)).length + 2 ≤ f := by
          rw [hst] at hf
          simp only [List.length_cons, List.length_append] at hf
          omega
        obtain ⟨f1, rfl⟩ : ∃ f1, f = f1 + 1 := ⟨f - 1, by omega⟩
        have IH' : ∀ z ∈ x :: l, ∀ f2 r2, z.stringify.length ≤ f2 →
            delimOkB r2 = true → parseValue f2 (z.stringify ++ r2) = some (z, r2) := by
          intro z hz
          apply ih
          have hlt := List.sizeOf_lt_of_mem hz
          have hsz : sizeOf (Json.arr (x :: l)) = 1 + sizeOf (x :: l) := by simp
          omega
        have hpe := parseElems_stringify (x :: l) (by simp) IH' f1 rest (by omega)
        rw [hst]
        simp only [List.cons_append, List.append_assoc, List.nil_append]
        rw [parseValue]
        rw [if_neg (by norm_num), if_neg (by norm_num), if_neg (by norm_num),
          if_neg (by norm_num), if_neg (by norm_num), if_pos rfl]
        rw [hu, hx] at hpe ⊢
        simp only [List.cons_append, List.append_assoc] at hpe ⊢
        rw [if_neg (by simp [hb93]), hpe]
    | obj ms =>
      cases ms with
      | nil =>
        have h2 : 2 ≤ f := by simpa [Json.stringify, stringifyMembers] using hf
        obtain ⟨f1, rfl⟩ : ∃ f1, f = f1 + 1 := ⟨f - 1, by omega⟩
        show parseValue (f1 + 1) (123 :: 125 :: rest) = some (.obj [], rest)
        rw [parseValue]
        rw [if_neg (by norm_num), if_neg (by norm_num), if_neg (by norm_num),
          if_neg (by norm_num), if_neg (by norm_num), if_neg (by norm_num),
          if_pos rfl]
        simp
      | cons m t =>
        have hsm_head : ∃ w, stringifyMembers (m :: t) = 34 :: w := by
          obtain ⟨k, v⟩ := m
          cases t with
          | nil => exact ⟨_, rfl⟩
          | cons m2 t2 => exact ⟨_, rfl⟩
        obtain ⟨w, hw⟩ := hsm_head
        have hst : Json.stringify (.obj (m :: t))
            = 123 :: (stringifyMembers (m :: t) ++ [125]) := rfl
        have hflen : (stringifyMembers (m :: t)).length + 2 ≤ f := by
          rw [hst] at hf
          simp only [List.length_cons, List.length_append] at hf
          omega
        obtain ⟨f1, rfl⟩ : ∃ f1, f = f1 + 1 := ⟨f - 1, by omega⟩
        have IH' : ∀ z ∈ m :: t, ∀ f2 r2, z.2.stringify.length ≤ f2 →
            delimOkB r2 = true → parseValue f2 (z.2.stringify ++ r2) = some (z.2, r2) := by
          intro z hz
          obtain ⟨zk, zv⟩ := z
          apply ih
          have hlt := List.sizeOf_lt_of_mem hz
          have hsz : sizeOf (Json.obj (m :: t)) = 1 + sizeOf (m :: t) := by simp
          have hpz : sizeOf ((zk, zv) : List Nat × Json) = 1 + sizeOf zk + sizeOf zv := by
            simp
          show sizeOf zv ≤ N
          omega
        have hpm := parseMembers_stringify (m :: t) (by simp) IH' f1 rest (by omega)
        rw [hst]
        simp only [List.cons_append, List.append_assoc, List.nil_append]
        rw [parseValue]
        rw [if_neg (by norm_num), if_neg (by norm_num), if_neg (by norm_num),
          if_neg (by norm_num), if_neg (by norm_num), if_neg (by norm_num),
          if_pos rfl]
        rw [hw] at hpm ⊢
        simp only [List.cons_append, List.append_assoc] at hpm ⊢
        rw [if_neg (by simp), hpm]

/-- `JSON.parse` inverts `JSON.stringify`: the round-trip property of the
modelled serializer pair. -/
theorem JSON_parse_stringify (v : Json) : JSON_parse v.stringify = some v := by
  have h := parseValue_stringify_aux (sizeOf v) v (Nat.le_refl _)
    (v.stringify.length + 1) [] (by omega) rfl
  rw [List.append_nil] at h
  unfold JSON_parse
  rw [h]

/-- C1: for every JSON-serializable value `v` without cycles (here: every
`Json` value, with its encoded length in 32-bit range), feeding the decoder
the exact byte frame produced by encoding `v` via `emit` results in exactly
one `onMessage` callback whose message is deeply equal to `v`. -/
theorem C1_roundtrip_emit_decode (j : Json) (frame : List Nat)
    (hlen : (Json.stringify j).length < 4294967296)
    (hemit : emit (.serializable j) = .ok frame) :
    (onDataChunk initialDecoderState frame).2 = [BridgeEvent.message j] := by
  have hframe : frame = mkFrame (Json.stringify j) := by
    unfold emit JSON_stringify at hemit
    simp only [Except.ok.injEq] at hemit
    rw [← hemit]
    rfl
  rw [hframe, show initialDecoderState = (⟨false, 0, []⟩ : DecoderState) from rfl,
    onDataChunk_mkFrame 0 (Json.stringify j) hlen]
  simp [frameEvent, JSON_parse_stringify j]

theorem C1_roundtrip_emit_decode_witness :
    (Json.stringify .null).length < 4294967296
      ∧ emit (.serializable .null) = .ok [4, 0, 0, 0, 110, 117, 108, 108]
      ∧ (onDataChunk initialDecoderState [4, 0, 0, 0, 110, 117, 108, 108]).2
          = [BridgeEvent.message .null] :=
  ⟨by decide, rfl, C1_roundtrip_emit_decode .null _ (by decide) rfl⟩

/-- C2: for every valid frame (a 32-bit length prefix over a payload that
parses as JSON) and every way of splitting its bytes into non-empty
sub-chunks, feeding the sub-chunks one at a time produces exactly one
decoded message, identical to feeding the whole frame at once. -/
theorem C2_chunk_boundary_independence (p : List Nat) (m : Json)
    (chunks : List (List Nat))
    (hlen : p.length < 4294967296)
    (hparse : JSON_parse p = some m)
    (hne : ∀ c ∈ chunks, c ≠ [])
    (hjoin : chunks.flatten = mkFrame p) :
    (feedAll initialDecoderState chunks).2 = [BridgeEvent.message m]
      ∧ (onDataChunk initialDecoderState (mkFrame p)).2
          = [BridgeEvent.message m] := by
  have hinit : initialDecoderState = (⟨false, 0, []⟩ : DecoderState) := rfl
  have hsingle := onDataChunk_mkFrame 0 p hlen
  constructor
  · rw [feedAll_join initialDecoderState decoderInv_initial chunks, hjoin, hinit,
      hsingle]
    simp [frameEvent, hparse]
  · rw [hinit, hsingle]
    simp [frameEvent, hparse]

theorem C2_chunk_boundary_independence_witness :
    ([110, 117, 108, 108] : List Nat).length < 4294967296
      ∧ JSON_parse [110, 117, 108, 108] = some .null
      ∧ (∀ c ∈ [[4], [0, 0, 0, 110], [117, 108, 108]], c ≠ ([] : List Nat))
      ∧ ([[4], [0, 0, 0, 110], [117, 108, 108]] : List (List Nat)).flatten
          = mkFrame [110, 117, 108, 108]
      ∧ (feedAll initialDecoderState [[4], [0, 0, 0, 110], [117, 108, 108]]).2
          = [BridgeEvent.message .null] :=
  ⟨by decide, rfl, by decide, rfl,
    (C2_chunk_boundary_independence [110, 117, 108, 108] .null
      [[4], [0, 0, 0, 110], [117, 108, 108]] (by decide) rfl (by decide) rfl).1⟩

/-- C3: a frame whose payload is not valid JSON yields exactly one error
callback tagged `RECEIVE_ERROR` carrying the raw un-parsed payload, the
state machine is not halted, and a well-formed frame immediately following
it in the stream is still decoded and delivered. -/
theorem C3_malformed_payload_isolation (bad good : List Nat) (m : Json)
    (hbad : JSON_parse bad = none)
    (hgood : JSON_parse good = some m)
    (hlb : bad.length < 4294967296)
    (hlg : good.length < 4294967296) :
    (onDataChunk initialDecoderState (mkFrame bad ++ mkFrame good)).2
      = [BridgeEvent.error .RECEIVE_ERROR bad, BridgeEvent.message m] := by
  rw [onDataChunk_append,
    show initialDecoderState = (⟨false, 0, []⟩ : DecoderState) from rfl,
    onDataChunk_mkFrame 0 bad hlb, onDataChunk_mkFrame bad.length good hlg]
  simp [frameEvent, hbad, hgood]

theorem C3_malformed_payload_isolation_witness :
    JSON_parse [123] = none
      ∧ JSON_parse [110, 117, 108, 108] = some .null
      ∧ (onDataChunk initialDecoderState
            (mkFrame [123] ++ mkFrame [110, 117, 108, 108])).2
          = [BridgeEvent.error .RECEIVE_ERROR [123], BridgeEvent.message .null] :=
  ⟨rfl, rfl,
    C3_malformed_payload_isolation [123] [110, 117, 108, 108] .null rfl rfl
      (by decide) (by decide)⟩

/-- C4: feeding the concatenation of two valid frames as one single chunk
produces exactly two decoded messages, in the order their frames appeared. -/
theorem C4_two_frames_batched (p1 p2 : List Nat) (m1 m2 : Json)
    (h1 : JSON_parse p1 = some m1) (h2 : JSON_parse p2 = some m2)
    (hl1 : p1.length < 4294967296) (hl2 : p2.length < 4294967296) :
    (onDataChunk initialDecoderState (mkFrame p1 ++ mkFrame p2)).2
      = [BridgeEvent.message m1, BridgeEvent.message m2] := by
  rw [onDataChunk_append,
    show initialDecoderState = (⟨false, 0, []⟩ : DecoderState) from rfl,
    onDataChunk_mkFrame 0 p1 hl1, onDataChunk_mkFrame p1.length p2 hl2]
  simp [frameEvent, h1, h2]

theorem C4_two_frames_batched_witness :
    JSON_parse [110, 117, 108, 108] = some .null
      ∧ JSON_parse [116, 114, 117, 101] = some (.bool true)
      ∧ (onDataChunk initialDecoderState
            (mkFrame [110, 117, 108, 108] ++ mkFrame [116, 114, 117, 101])).2
          = [BridgeEvent.message .null, BridgeEvent.message (.bool true)] :=
  ⟨rfl, rfl,
    C4_two_frames_batched [110, 117, 108, 108] [116, 114, 117, 101] .null
      (.bool true) rfl rfl (by decide) (by decide)⟩

/-- C5: for every message whose JSON serialization succeeds (and fits the
32-bit length field), `emit` writes a single buffer to the outbound stream:
exactly 4 bytes holding the payload byte length as an unsigned little-endian
32-bit integer, immediately followed by exactly the payload bytes. -/
theorem C5_emit_frame_layout (out : List (List Nat)) (j : Json)
    (hlen : (Json.stringify j).length < 4294967296) :
    ∃ frame,
      emitToStream out (.serializable j) = (out ++ [frame], none)
        ∧ frame = writeUInt32LE (Json.stringify j).length ++ Json.stringify j
        ∧ (writeUInt32LE (Json.stringify j).length).length = 4
        ∧ frame.take 4 = writeUInt32LE (Json.stringify j).length
        ∧ frame.drop 4 = Json.stringify j
        ∧ readUInt32LE frame = (Json.stringify j).length := by
  refine ⟨writeUInt32LE (Json.stringify j).length ++ Json.stringify j,
    rfl, rfl, rfl, ?_, ?_, readUInt32LE_writeUInt32LE _ _ hlen⟩
  · simp [writeUInt32LE]
  · simp [writeUInt32LE]

theorem C5_emit_frame_layout_witness :
    (Json.stringify .null).length < 4294967296
      ∧ ∃ frame,
          emitToStream [] (.serializable .null) = ([] ++ [frame], none)
            ∧ frame = writeUInt32LE (Json.stringify .null).length
                ++ Json.stringify .null
            ∧ (writeUInt32LE (Json.stringify .null).length).length = 4
            ∧ frame.take 4 = writeUInt32LE (Json.stringify .null).length
            ∧ frame.drop 4 = Json.stringify .null
            ∧ readUInt32LE frame = (Json.stringify .null).length :=
  ⟨by decide, C5_emit_frame_layout [] .null (by decide)⟩

/-- C6: for every value whose JSON serialization fails (e.g. a circular
object), `emit` throws an error tagged `SEND_ERROR` synchronously to its
caller and performs no write at all to the outbound stream. -/
theorem C6_emit_failure_no_write (out : List (List Nat)) (v : JSValue)
    (h : JSON_stringify v = none) :
    emit v = .error .SEND_ERROR ∧ emitToStream out v = (out, some .SEND_ERROR) := by
  have he : emit v = .error .SEND_ERROR := by
    unfold emit
    rw [h]
  refine ⟨he, ?_⟩
  unfold emitToStream
  rw [he]

theorem C6_emit_failure_no_write_witness :
    JSON_stringify .circular = none
      ∧ emit .circular = .error .SEND_ERROR
      ∧ emitToStream [] .circular = ([], some .SEND_ERROR) :=
  ⟨rfl, (C6_emit_failure_no_write [] .circular rfl).1,
    (C6_emit_failure_no_write [] .circular rfl).2⟩

/-- C7: after `close()` the decoder state equals its initial state (flag
false, pending length zero, empty buffer), no subsequently delivered chunk
produces any message or error callback, and a second `close()` has no
observable effect on state. -/
theorem C7_close_resets_and_idempotent (b : Bridge) :
    b.close.decoder = initialDecoderState
      ∧ (∀ chunk, deliverChunk b.close chunk = (b.close, []))
      ∧ b.close.close = b.close := by
  refine ⟨rfl, ?_, rfl⟩
  intro chunk
  unfold deliverChunk
  rw [if_neg]
  simp [Bridge.close]

/-- C8 counterexample: with the argument `--parent-window=abc` — a present
but malformed (non-numeric) value — the code sets `parentWindow` to `NaN`
rather than leaving it unset, refuting the claim that malformed values
leave the handle unset. -/
theorem C8_args_parsing_counterexample :
    (parseAndAssignArgs [[], [],
        ['c', 'h', 'r', 'o', 'm', 'e'],
        ['-', '-', 'p', 'a', 'r', 'e', 'n', 't', '-', 'w', 'i', 'n', 'd', 'o',
          'w', '=', 'a', 'b', 'c']]).parentWindow = some JsNum.nan
      ∧ (parseAndAssignArgs [[], [],
          ['c', 'h', 'r', 'o', 'm', 'e'],
          ['-', '-', 'p', 'a', 'r', 'e', 'n', 't', '-', 'w', 'i', 'n', 'd', 'o',
            'w', '=', 'a', 'b', 'c']]).parentWindow ≠ none := by
  constructor
  · rfl
  · decide

/-- C8 (amended): the caller-origin string is taken from fixed position 2;
the `parentWindow` handle is left unset when the subsequent argument is
absent, lacks the `--parent-window=` marker, or has an empty value after the
first `=`; a present non-empty value is converted with `Number`, so a
malformed (non-numeric) value yields a handle set to `NaN` — construction
never fails either way. -/
theorem C8_args_parsing_amended (args : List (List Char)) :
    (parseAndAssignArgs args).origin = args[2]?
      ∧ (args[3]? = none → (parseAndAssignArgs args).parentWindow = none)
      ∧ (∀ a, args[3]? = some a → jsIncludes parentWindowMarker a = false →
          (parseAndAssignArgs args).parentWindow = none)
      ∧ (∀ a, args[3]? = some a → (a.splitOn '=')[1]? = some [] →
          (parseAndAssignArgs args).parentWindow = none)
      ∧ (∀ a pw, args[3]? = some a → jsIncludes parentWindowMarker a = true →
          (a.splitOn '=')[1]? = some pw → pw ≠ [] →
          (parseAndAssignArgs args).parentWindow = some (jsToNumber pw)) := by
  unfold parseAndAssignArgs
  refine ⟨rfl, ?_, ?_, ?_, ?_⟩
  · intro h3
    simp [h3]
  · intro a h3 hinc
    simp [h3, hinc]
  · intro a h3 hsplit
    simp [h3, hsplit]
  · intro a pw h3 hinc hsplit hpw
    have ha : a ≠ [] := by
      rintro rfl
      rw [show jsIncludes parentWindowMarker [] = false from rfl] at hinc
      exact Bool.false_ne_true hinc
    simp [h3, ha, hinc, hsplit, hpw]

theorem C8_args_parsing_amended_witness :
    (parseAndAssignArgs [[], [],
        ['c', 'h', 'r', 'o', 'm', 'e'],
        ['-', '-', 'p', 'a', 'r', 'e', 'n', 't', '-', 'w', 'i', 'n', 'd', 'o',
          'w', '=', '6', '7', '2', '0', '0']]).parentWindow
      = some (jsToNumber ['6', '7', '2', '0', '0'])
      ∧ jsToNumber ['6', '7', '2', '0', '0'] = JsNum.num 67200 :=
  ⟨(C8_args_parsing_amended [[], [],
      ['c', 'h', 'r', 'o', 'm', 'e'],
      ['-', '-', 'p', 'a', 'r', 'e', 'n', 't', '-', 'w', 'i', 'n', 'd', 'o',
        'w', '=', '6', '7', '2', '0', '0']]).2.2.2.2
    ['-', '-', 'p', 'a', 'r', 'e', 'n', 't', '-', 'w', 'i', 'n', 'd', 'o',
      'w', '=', '6', '7', '2', '0', '0'] ['6', '7', '2', '0', '0']
    rfl (by decide) (by decide) (by decide), by decide⟩

/-- C9: whenever the extraction loop has run to quiescence — after any chunk
delivery from any state, at construction, and after `close()` — the decoder
state satisfies the invariant: fewer than 4 buffered bytes when the length
is unknown, fewer than pending-length bytes when it is known. -/
theorem C9_decoder_invariant :
    DecoderInv initialDecoderState
      ∧ (∀ s chunk, DecoderInv (onDataChunk s chunk).1)
      ∧ (∀ b : Bridge, DecoderInv b.close.decoder) := by
  refine ⟨decoderInv_initial, ?_, ?_⟩
  · intro s chunk
    exact decoderInv_parseNextMessage _
  · intro b
    exact decoderInv_initial

/-- C10: a frame whose declared length field is zero produces exactly one
error callback tagged `RECEIVE_ERROR` carrying the empty raw text and no
message callback, and decoding continues correctly with any bytes that
follow in the stream. -/
theorem C10_zero_length_frame (L : Nat) (rest : List Nat) :
    onDataChunk ⟨false, L, []⟩ ([0, 0, 0, 0] ++ rest)
      = ((onDataChunk ⟨false, 0, []⟩ rest).1,
          BridgeEvent.error .RECEIVE_ERROR []
            :: (onDataChunk ⟨false, 0, []⟩ rest).2)
      ∧ onDataChunk ⟨false, L, []⟩ [0, 0, 0, 0]
          = (⟨false, 0, []⟩, [BridgeEvent.error .RECEIVE_ERROR []]) := by
  have hmk : ([0, 0, 0, 0] : List Nat) = mkFrame [] := rfl
  have hone := onDataChunk_mkFrame L [] (by norm_num)
  constructor
  · rw [hmk, onDataChunk_append, hone]
    rfl
  · rw [hmk, hone]
    rfl
